import Mathlib

/-!
Verification of the fine-management backend's ledger ingestion / reconciliation
engine and its aggregation engine, shallowly embedded from the repository's
controllers (`studentController.js`, `expenditureController.js`).

Conventions of the embedding:
* CSV rows are association lists `List (String × String)` in enumeration
  (insertion) order, mirroring `Object.keys` order of a parsed row object.
* Optional / possibly-`undefined` JavaScript string values are `Option String`;
  the JS idiom `x || undefined` (collapsing the empty string to `undefined`)
  is the function `present` below.
* Monetary amounts are integers.
* Dates are modelled at day granularity (year, month, day); the Mongo
  `$gte`/`$lte` range checks on dates become lexicographic comparison.
* The persisted student collection is modelled as a map from PRN to student
  (`Roster`), per the repository's documented schema invariant
  `prn: String (unique, required)`; `Student.findOne({prn})` is application,
  `save`/`create` are pointwise update.
-/

namespace FineMgmt

/-- `pat` occurs as a contiguous run inside `l`. -/
def containsRun (pat : List Char) : List Char → Bool
  | [] => pat.isEmpty
  | c :: rest => pat.isPrefixOf (c :: rest) || containsRun pat rest

/-- `s` contains `pat` as a substring (JS `s.includes(pat)`). -/
def strContains (s pat : String) : Bool :=
  containsRun pat.toList s.toList

/-- Character-wise upper-casing (JS `toUpperCase` on ASCII data). -/
def strUpper (s : String) : String := ⟨s.data.map Char.toUpper⟩

/-- Strip leading and trailing whitespace (JS `trim`). -/
def strTrim (s : String) : String :=
  ⟨((s.data.dropWhile Char.isWhitespace).reverse.dropWhile
      Char.isWhitespace).reverse⟩

/-- A parsed CSV row: normalized header name / cell value pairs,
in enumeration order. -/
abbrev Row := List (String × String)

/-- JS object property access `row[k]` (first binding wins). -/
def rowLookup (row : Row) (k : String) : Option String :=
  (row.find? (fun kv => kv.1 == k)).map (fun kv => kv.2)

/-- The bidirectional substring test used by the uploader:
`rowKey.includes(key) || key.includes(rowKey)`. -/
def substrMatch (k rowKey : String) : Bool :=
  strContains rowKey k || strContains k rowKey

/-- `getValue(row, ...possibleKeys)` from `uploadStudentsCSV`: for each alias
in order, try an exact key match (returning the trimmed value), otherwise scan
the row's keys in enumeration order for a bidirectional substring match;
if no alias matches at all, the value is absent. -/
def getValue (row : Row) : List String → Option String
  | [] => none
  | k :: rest =>
    match rowLookup row k with
    | some v => some (strTrim v)
    | none =>
      match row.find? (fun kv => substrMatch k kv.1) with
      | some kv => some (strTrim kv.2)
      | none => getValue row rest

/-- Resolved identifier: `getValue(row, 'prn number', 'prn', 'prnnumber')?.toUpperCase()`. -/
def rowPrn (row : Row) : Option String :=
  (getValue row ["prn number", "prn", "prnnumber"]).map strUpper

def rowName (row : Row) : Option String :=
  getValue row ["student name", "name", "studentname"]

def rowAcademicYear (row : Row) : Option String :=
  getValue row ["academic year", "academicyear"]

def rowSemester (row : Row) : Option String :=
  getValue row ["semester"]

def rowYear (row : Row) : Option String :=
  getValue row ["year"]

def rowDivision (row : Row) : Option String :=
  getValue row ["division"]

def rowRollNo (row : Row) : Option String :=
  getValue row ["roll no", "rollno", "roll"]

def rowPhone (row : Row) : Option String :=
  getValue row ["mobile number", "mobile", "phone"]

def rowEmail (row : Row) : Option String :=
  getValue row ["email id", "email", "emailid"]

/-- The JS idiom `v || undefined`: an absent or empty string collapses
to absent. -/
def present : Option String → Option String
  | some v => if v = "" then none else some v
  | none => none

/-- JS falsiness of an optional string (`!x`): absent or empty. -/
def falsy : Option String → Bool
  | some v => v == ""
  | none => true

/-- A calendar date at day granularity. -/
structure Date where
  year : Nat
  month : Nat
  day : Nat
deriving DecidableEq, Repr

/-- One entry of a student's ledger (an element of the `fines` array). -/
structure LedgerEntry where
  amount : Int
  reason : String
  type : String
  category : String
  receiptNumber : String
  date : Date
  isPaid : Bool
  paidDate : Date
deriving DecidableEq, Repr

/-- A persisted student record. -/
structure Student where
  prn : String
  name : String
  academicYear : Option String
  semester : Option String
  year : Option String
  division : Option String
  rollNo : Option String
  department : Option String
  email : Option String
  phone : Option String
  fines : List LedgerEntry
deriving DecidableEq, Repr

/-- The `studentData` object assembled by `uploadStudentsCSV` for one row
(with `|| undefined` collapsing already applied to the optional fields;
note `department` is populated from the *division* column). -/
structure StudentData where
  prn : String
  name : String
  academicYear : Option String
  semester : Option String
  year : Option String
  division : Option String
  rollNo : Option String
  department : Option String
  email : Option String
  phone : Option String
deriving DecidableEq, Repr

def rowData (row : Row) : StudentData :=
  { prn := (rowPrn row).getD ""
    name := (rowName row).getD ""
    academicYear := present (rowAcademicYear row)
    semester := present (rowSemester row)
    year := present (rowYear row)
    division := present (rowDivision row)
    rollNo := present (rowRollNo row)
    department := present (rowDivision row)
    email := present (rowEmail row)
    phone := present (rowPhone row) }

/-- `if (x) target = x`: keep the new value when present, the old one
otherwise. -/
def optOr : Option String → Option String → Option String
  | some v, _ => some v
  | none, b => b

/-- The update path of `uploadStudentsCSV` for an existing student:
name is overwritten unconditionally; each optional field only when the
row's value is present (`if (studentData.x) existing.x = studentData.x`);
`prn` and `fines` are not touched. -/
def mergeStudent (s : Student) (d : StudentData) : Student :=
  { s with
    name := d.name
    academicYear := optOr d.academicYear s.academicYear
    semester := optOr d.semester s.semester
    year := optOr d.year s.year
    division := optOr d.division s.division
    rollNo := optOr d.rollNo s.rollNo
    department := optOr d.department s.department
    email := optOr d.email s.email
    phone := optOr d.phone s.phone }

/-- The create path of `uploadStudentsCSV`: `Student.create(studentData)`,
with an empty ledger. -/
def createStudent (d : StudentData) : Student :=
  { prn := d.prn
    name := d.name
    academicYear := d.academicYear
    semester := d.semester
    year := d.year
    division := d.division
    rollNo := d.rollNo
    department := d.department
    email := d.email
    phone := d.phone
    fines := [] }

/-- Modelled from the spec (the `models/Student.js` schema file is not under
`src/`, but the repository README documents `prn: String (unique, required)`
and the spec's invariant is that `prn` is globally unique): the persisted
student collection, as a map from PRN to student record. -/
abbrev Roster := String → Option Student

def updateRoster (r : Roster) (p : String) (s : Student) : Roster :=
  fun q => if q = p then some s else r q

/-- Running state of one `uploadStudentsCSV` batch: the roster plus the
`successCount` / `updateCount` / `errorCount` / `errors` accumulators. -/
structure BatchState where
  roster : Roster
  newStudents : Nat
  updatedStudents : Nat
  errorCount : Nat
  errorDetails : List (String × String)

/-- The identifier recorded for a row rejected by validation:
`prn: prn || 'N/A'` with the resolved (uppercased) identifier. -/
def errPrnValid (row : Row) : String :=
  match rowPrn row with
  | some v => if v = "" then "N/A" else v
  | none => "N/A"

/-- The identifier recorded for a row whose persistence threw:
`prn: row.prn || 'Unknown'` — the row's *raw* value under the exact
normalized key `prn` (not the alias-resolved identifier). -/
def rawPrnFallback (row : Row) : String :=
  match present (rowLookup row "prn") with
  | some v => v
  | none => "Unknown"

/-- A row passes the uploader's validation: both the resolved identifier and
the resolved name are JS-truthy. -/
def validRow (row : Row) : Bool :=
  !(falsy (rowPrn row) || falsy (rowName row))

def missingFieldsMsg : String :=
  "Missing required fields (PRN Number or Student Name)"

/-- One iteration of the row loop of `uploadStudentsCSV`. `exc` injects the
possibility that persistence for this row throws (`some msg` = an exception
with message `msg`, caught by the per-row `catch`); validation failures are
detected before persistence and are unaffected by `exc`. -/
def processRow (st : BatchState) (row : Row) (exc : Option String) : BatchState :=
  if falsy (rowPrn row) || falsy (rowName row) then
    { st with
      errorCount := st.errorCount + 1
      errorDetails := st.errorDetails ++ [(errPrnValid row, missingFieldsMsg)] }
  else
    match exc with
    | some msg =>
      { st with
        errorCount := st.errorCount + 1
        errorDetails := st.errorDetails ++ [(rawPrnFallback row, msg)] }
    | none =>
      let d := rowData row
      match st.roster d.prn with
      | some s =>
        { st with
          roster := updateRoster st.roster d.prn (mergeStudent s d)
          updatedStudents := st.updatedStudents + 1 }
      | none =>
        { st with
          roster := updateRoster st.roster d.prn (createStudent d)
          newStudents := st.newStudents + 1 }

/-- The row loop of `uploadStudentsCSV`, each row paired with its
persistence outcome. -/
def runRows (st : BatchState) : List (Row × Option String) → BatchState
  | [] => st
  | (row, exc) :: rest => runRows (processRow st row exc) rest

/-- The `data` object of the uploader's response. -/
structure BatchResult where
  totalRecords : Nat
  newStudents : Nat
  updatedStudents : Nat
  errors : Nat
  errorDetails : List (String × String)

def initState (r : Roster) : BatchState :=
  { roster := r, newStudents := 0, updatedStudents := 0
    errorCount := 0, errorDetails := [] }

/-- `uploadStudentsCSV` on parsed rows: run the batch and report counts. -/
def uploadStudentsCSV (r : Roster) (rows : List (Row × Option String)) :
    BatchState × BatchResult :=
  let st := runRows (initState r) rows
  (st, { totalRecords := rows.length
         newStudents := st.newStudents
         updatedStudents := st.updatedStudents
         errors := st.errorCount
         errorDetails := st.errorDetails })

/-- A batch in which every row's persistence succeeds. -/
def noExc (rows : List Row) : List (Row × Option String) :=
  rows.map (fun r => (r, none))

/-! ### `addFineToStudent` (AppendLedgerEntry) -/

/-- The request-body `amount` as validated by `addFineToStudent`:
either absent, a truthy non-numeric value (`isNaN(Number(x))`), or a
numeric value. -/
inductive AmountInput
  | missing
  | nonNumeric
  | numeric (n : Int)
deriving DecidableEq, Repr

/-- JS falsiness of the amount (`!amount`): absent, or the number 0. -/
def amountFalsy : AmountInput → Bool
  | .missing => true
  | .nonNumeric => false
  | .numeric n => n == 0

/-- The second validation: `isNaN(amount) || Number(amount) <= 0`. -/
def amountBad : AmountInput → Bool
  | .missing => true
  | .nonNumeric => true
  | .numeric n => decide (n ≤ 0)

/-- How the call fails: a 400 validation error (one of the two thrown
messages) or a 404 not-found error. -/
inductive FineError
  | missingAmount
  | nonPositiveAmount
  | notFound (prn : String)
deriving DecidableEq, Repr

def FineError.isValidationErr : FineError → Bool
  | .missingAmount => true
  | .nonPositiveAmount => true
  | .notFound _ => false

def digitChar (n : Nat) : Char := Char.ofNat (48 + n)

/-- Decimal digits of `n` with explicit recursion fuel (any fuel above `n`
gives the digits of `n`, most significant first). -/
def decDigitsAux : Nat → Nat → List Char
  | 0, _ => []
  | fuel + 1, n =>
    if n < 10 then [digitChar n]
    else decDigitsAux fuel (n / 10) ++ [digitChar (n % 10)]

/-- Decimal digits of `n`, most significant first (the rendering used by the
JS template literal). -/
def decDigits (n : Nat) : List Char := decDigitsAux (n + 1) n

def natToStr (n : Nat) : String :=
  ⟨decDigits n⟩

/-- Two-digit zero-padded field of an ISO date string. -/
def pad2 (n : Nat) : String :=
  if n < 10 then "0" ++ natToStr n else natToStr n

/-- Four-digit zero-padded year of an ISO date string. -/
def pad4 (n : Nat) : String :=
  if n < 10 then "000" ++ natToStr n
  else if n < 100 then "00" ++ natToStr n
  else if n < 1000 then "0" ++ natToStr n
  else natToStr n

/-- `now.toISOString().slice(0, 10)` with the dashes removed: the call date
as `YYYYMMDD`. -/
def dateStr8 (d : Date) : String :=
  pad4 d.year ++ pad2 d.month ++ pad2 d.day

/-- `RCP-${dateStr}-${randomNum}` where `randomNum = Math.floor(10000 +
Math.random() * 90000)`; `rand5` stands for `Math.floor(Math.random() *
90000)`, a value `< 90000`. -/
def receiptNumber (now : Date) (rand5 : Nat) : String :=
  "RCP-" ++ dateStr8 now ++ "-" ++ natToStr (10000 + rand5)

/-- `Number(amount)` of a value that passed both validations. -/
def amountVal : AmountInput → Int
  | .numeric n => n
  | _ => 0

/-- `addFineToStudent`: validate the amount, look the student up by the
uppercased identifier, generate a receipt number from the call date, append
the new ledger entry and persist. On any failure the call throws before any
mutation, so the roster is returned unchanged. -/
def addFineToStudent (r : Roster) (prn : String) (amount : AmountInput)
    (reason tp category : Option String) (date : Option Date)
    (now : Date) (rand5 : Nat) : Except FineError LedgerEntry × Roster :=
  if amountFalsy amount then (.error .missingAmount, r)
  else if amountBad amount then (.error .nonPositiveAmount, r)
  else
    match r (strUpper prn) with
    | none => (.error (.notFound (strUpper prn)), r)
    | some s =>
      let amt : Int := amountVal amount
      let entry : LedgerEntry :=
        { amount := amt
          reason := strTrim (reason.getD "")
          type := match present tp with | some v => v | none => "fine"
          category := match present category with | some v => v | none => "Others"
          receiptNumber := receiptNumber now rand5
          date := date.getD now
          isPaid := true
          paidDate := now }
      (.ok entry, updateRoster r (strUpper prn) { s with fines := s.fines ++ [entry] })

/-! ### The aggregation engine (`expenditureController.js`) -/

/-- A persisted expenditure record (the fields the aggregations read). -/
structure Expenditure where
  amount : Int
  description : String
  category : String
  department : Option String
  date : Date
deriving DecidableEq, Repr

/-- The `$unwind: '$fines'` stage: one document per ledger entry, in
collection order. -/
def unwindFines (students : List Student) : List LedgerEntry :=
  students.flatMap (fun s => s.fines)

/-- A `$sum` accumulator over a list of amounts. -/
def sumAmounts (l : List Int) : Int :=
  l.foldl (fun a x => a + x) 0

/-- The income pipeline of `getFinancialSummary`: unwind all fines, group
with `$sum`; an empty result list yields 0
(`incomeResult.length > 0 ? incomeResult[0].totalIncome : 0`). -/
def totalIncomePipeline (students : List Student) : Int :=
  let docs := unwindFines students
  if docs.isEmpty then 0 else sumAmounts (docs.map (fun e => e.amount))

/-- The expenditure pipeline of `getFinancialSummary`. -/
def totalExpenditurePipeline (exps : List Expenditure) : Int :=
  if exps.isEmpty then 0 else sumAmounts (exps.map (fun e => e.amount))

/-- The `financial` object of the summary response. -/
structure FinancialSummary where
  totalIncome : Int
  totalExpenditure : Int
  balance : Int
  status : String
deriving DecidableEq, Repr

def getFinancialSummary (students : List Student) (exps : List Expenditure) :
    FinancialSummary :=
  let totalIncome := totalIncomePipeline students
  let totalExpenditure := totalExpenditurePipeline exps
  let balance := totalIncome - totalExpenditure
  { totalIncome := totalIncome
    totalExpenditure := totalExpenditure
    balance := balance
    status := if balance ≥ 0 then "surplus" else "deficit" }

/-- Day-granularity date comparison (the Mongo `$gte`/`$lte` on dates). -/
def dateLE (a b : Date) : Bool :=
  decide (a.year < b.year ∨ (a.year = b.year ∧
    (a.month < b.month ∨ (a.month = b.month ∧ a.day ≤ b.day))))

/-- The `$match` window of `getMonthlyReport`:
`{ $gte: new Date(year-01-01), $lte: new Date(year-12-31) }`. -/
def inYearSpan (y : Nat) (d : Date) : Bool :=
  dateLE ⟨y, 1, 1⟩ d && dateLE d ⟨y, 12, 31⟩

/-- Fold one matched document into the `$group`-by-month accumulator
(month, running `$sum` of amount, running count). -/
def addToGroup (g : List (Nat × Int × Nat)) (m : Nat) (a : Int) :
    List (Nat × Int × Nat) :=
  match g with
  | [] => [(m, a, 1)]
  | (k, s, c) :: rest =>
    if k = m then (k, s + a, c + 1) :: rest
    else (k, s, c) :: addToGroup rest m a

/-- The `$group: { _id: { month }, $sum, count }` stage over (month, amount)
documents. -/
def groupByMonth (es : List (Nat × Int)) : List (Nat × Int × Nat) :=
  es.foldl (fun g e => addToGroup g e.1 e.2) []

/-- `list.find(item => item._id.month === m)`, projected to (sum, count). -/
def findGroup (g : List (Nat × Int × Nat)) (m : Nat) : Option (Int × Nat) :=
  (g.find? (fun x => x.1 == m)).map (fun x => x.2)

/-- The matched and projected fine documents of year `y`. -/
def matchedFines (y : Nat) (students : List Student) : List (Nat × Int) :=
  ((unwindFines students).filter (fun e => inYearSpan y e.date)).map
    (fun e => (e.date.month, e.amount))

/-- The matched and projected expenditure documents of year `y`. -/
def matchedExps (y : Nat) (exps : List Expenditure) : List (Nat × Int) :=
  (exps.filter (fun e => inYearSpan y e.date)).map
    (fun e => (e.date.month, e.amount))

def monthNames : List String :=
  ["Jan", "Feb", "Mar", "Apr", "May", "Jun",
   "Jul", "Aug", "Sep", "Oct", "Nov", "Dec"]

/-- One month of the report. -/
structure MonthRow where
  month : String
  monthNumber : Nat
  income : Int
  expenditure : Int
  balance : Int
  fineCount : Nat
  expenditureCount : Nat
deriving DecidableEq, Repr

structure YearlyTotals where
  totalIncome : Int
  totalExpenditure : Int
  totalBalance : Int
deriving DecidableEq, Repr

structure MonthlyReport where
  year : Nat
  monthlyReport : List MonthRow
  yearlyTotals : YearlyTotals
deriving DecidableEq, Repr

/-- `getMonthlyReport`: group the year's fines and expenditures by calendar
month, then produce one row per month 1–12 (absent groups report zero), and
`reduce`-style yearly totals. -/
def getMonthlyReport (y : Nat) (students : List Student)
    (exps : List Expenditure) : MonthlyReport :=
  let monthlyIncome := groupByMonth (matchedFines y students)
  let monthlyExpenditure := groupByMonth (matchedExps y exps)
  let report := (List.range 12).map (fun i =>
    let incomeData := findGroup monthlyIncome (i + 1)
    let expData := findGroup monthlyExpenditure (i + 1)
    let income := (incomeData.map (fun x => x.1)).getD 0
    let expenditure := (expData.map (fun x => x.1)).getD 0
    { month := monthNames.getD i ""
      monthNumber := i + 1
      income := income
      expenditure := expenditure
      balance := income - expenditure
      fineCount := (incomeData.map (fun x => x.2)).getD 0
      expenditureCount := (expData.map (fun x => x.2)).getD 0 : MonthRow })
  { year := y
    monthlyReport := report
    yearlyTotals :=
      { totalIncome := report.foldl (fun a m => a + m.income) 0
        totalExpenditure := report.foldl (fun a m => a + m.expenditure) 0
        totalBalance := report.foldl (fun a m => a + m.balance) 0 } }

/-! ### Shared helper lemmas -/

theorem foldl_add_eq_sum (l : List Int) (a : Int) :
    l.foldl (fun x y => x + y) a = a + l.sum := by
  induction l generalizing a with
  | nil => simp
  | cons x xs ih => simp [List.foldl_cons, ih, List.sum_cons]; ring

theorem sumAmounts_eq_sum (l : List Int) : sumAmounts l = l.sum := by
  simp [sumAmounts, foldl_add_eq_sum]

/-! ### C7: field resolution -/

/-- Written from the spec's description of FieldResolver: try the aliases in
their declared order (`findSome?`); for each alias an exact key match first,
otherwise the first bidirectional substring match in row-key enumeration
order; absent when no alias matches; returned values are trimmed. -/
def resolveFieldSpec (row : Row) (aliases : List String) : Option String :=
  aliases.findSome? (fun k =>
    match rowLookup row k with
    | some v => some (strTrim v)
    | none => (row.find? (fun kv => substrMatch k kv.1)).map
        (fun kv => strTrim kv.2))

/-- C7: for every row and alias list, the uploader's `getValue` resolves
fields exactly as the spec describes (aliases in declared order, exact match
before bidirectional substring match with first row key winning, absent when
no alias matches, values trimmed), and the resolved identifier is the
uppercased resolution of the identifier aliases. -/
theorem getValue_follows_alias_resolution_spec (row : Row) :
    (∀ ks, getValue row ks = resolveFieldSpec row ks) ∧
    rowPrn row = (getValue row ["prn number", "prn", "prnnumber"]).map strUpper := by
  constructor
  · intro ks
    induction ks with
    | nil => rfl
    | cons k rest ih =>
      rw [getValue, resolveFieldSpec, List.findSome?_cons]
      cases h : rowLookup row k with
      | some v => rfl
      | none =>
        cases h2 : row.find? (fun kv => substrMatch k kv.1) with
        | some kv => rfl
        | none => rw [ih]; rfl
  · rfl

/-! ### C2: financial summary -/

/-- The spec's total income: the sum of `amount` over every ledger entry of
every student (students with empty ledgers contribute 0). -/
def specTotalIncome (students : List Student) : Int :=
  (students.map (fun s => (s.fines.map (fun e => e.amount)).sum)).sum

theorem unwindFines_cons (s : Student) (rest : List Student) :
    unwindFines (s :: rest) = s.fines ++ unwindFines rest := rfl

theorem totalIncomePipeline_eq (students : List Student) :
    totalIncomePipeline students = specTotalIncome students := by
  have h1 : totalIncomePipeline students =
      ((unwindFines students).map (fun e => e.amount)).sum := by
    rw [totalIncomePipeline]
    by_cases h : (unwindFines students).isEmpty
    · rw [List.isEmpty_iff] at h
      simp [h]
    · simp [h, sumAmounts_eq_sum]
  rw [h1]; clear h1
  induction students with
  | nil => rfl
  | cons s rest ih =>
    rw [unwindFines_cons, List.map_append, List.sum_append, ih]
    simp [specTotalIncome]

theorem totalExpenditurePipeline_eq (exps : List Expenditure) :
    totalExpenditurePipeline exps = (exps.map (fun e => e.amount)).sum := by
  rw [totalExpenditurePipeline]
  by_cases h : exps.isEmpty
  · rw [List.isEmpty_iff] at h
    simp [h]
  · simp [h, sumAmounts_eq_sum]

/-- C2: `getFinancialSummary` returns total income equal to the sum of
amounts over every ledger entry of every student, total expenditure equal to
the sum of amounts over every expenditure record, balance exactly income
minus expenditure, and status `"surplus"` iff the balance is ≥ 0, else
`"deficit"`. -/
theorem getFinancialSummary_correct (students : List Student)
    (exps : List Expenditure) :
    (getFinancialSummary students exps).totalIncome = specTotalIncome students ∧
    (getFinancialSummary students exps).totalExpenditure =
      (exps.map (fun e => e.amount)).sum ∧
    (getFinancialSummary students exps).balance =
      specTotalIncome students - (exps.map (fun e => e.amount)).sum ∧
    (getFinancialSummary students exps).status =
      (if specTotalIncome students - (exps.map (fun e => e.amount)).sum ≥ 0
       then "surplus" else "deficit") := by
  refine ⟨?_, ?_, ?_, ?_⟩ <;>
    simp [getFinancialSummary, totalIncomePipeline_eq, totalExpenditurePipeline_eq]

/-! ### C3: monthly report -/

/-- The spec's income of month `m` in year `y`: the sum of ledger-entry
amounts whose own date falls in that month within the year span. -/
def specMonthIncome (y m : Nat) (students : List Student) : Int :=
  (((unwindFines students).filter
      (fun e => inYearSpan y e.date && e.date.month == m)).map
    (fun e => e.amount)).sum

def specMonthFineCount (y m : Nat) (students : List Student) : Nat :=
  ((unwindFines students).filter
    (fun e => inYearSpan y e.date && e.date.month == m)).length

/-- The spec's expenditure of month `m` in year `y`. -/
def specMonthExp (y m : Nat) (exps : List Expenditure) : Int :=
  ((exps.filter (fun e => inYearSpan y e.date && e.date.month == m)).map
    (fun e => e.amount)).sum

def specMonthExpCount (y m : Nat) (exps : List Expenditure) : Nat :=
  (exps.filter (fun e => inYearSpan y e.date && e.date.month == m)).length

theorem map_getD_fst (o : Option (Int × Nat)) :
    (o.map (fun x => x.1)).getD 0 = (o.getD (0, 0)).1 := by
  cases o <;> rfl

theorem map_getD_snd (o : Option (Int × Nat)) :
    (o.map (fun x => x.2)).getD 0 = (o.getD (0, 0)).2 := by
  cases o <;> rfl

theorem findGroup_cons (k : Nat) (s : Int) (c : Nat) (rest : List (Nat × Int × Nat))
    (m : Nat) :
    findGroup ((k, s, c) :: rest) m =
      if k = m then some (s, c) else findGroup rest m := by
  by_cases h : k = m
  · rw [findGroup, List.find?_cons_of_pos _ (by simp [h]), if_pos h]
    rfl
  · rw [findGroup, List.find?_cons_of_neg _ (by simp [h]), if_neg h, findGroup]

theorem findGroupD_addToGroup (g : List (Nat × Int × Nat)) (m' : Nat) (a : Int)
    (m : Nat) :
    (findGroup (addToGroup g m' a) m).getD (0, 0) =
      if m' = m then
        (((findGroup g m).getD (0, 0)).1 + a, ((findGroup g m).getD (0, 0)).2 + 1)
      else (findGroup g m).getD (0, 0) := by
  induction g with
  | nil =>
    by_cases h : m' = m
    · simp [addToGroup, findGroup_cons, h, findGroup]
    · simp [addToGroup, findGroup_cons, h, findGroup]
  | cons x rest ih =>
    obtain ⟨k, s, c⟩ := x
    by_cases hk : k = m'
    · subst hk
      rw [show addToGroup ((k, s, c) :: rest) k a = (k, s + a, c + 1) :: rest by
        simp [addToGroup]]
      by_cases hm : k = m
      · subst hm
        rw [findGroup_cons, findGroup_cons, if_pos rfl, if_pos rfl, if_pos rfl]
        rfl
      · rw [findGroup_cons, findGroup_cons, if_neg hm, if_neg hm, if_neg hm]
    · rw [show addToGroup ((k, s, c) :: rest) m' a =
        (k, s, c) :: addToGroup rest m' a by simp [addToGroup, hk]]
      by_cases hm : k = m
      · rw [findGroup_cons, findGroup_cons, if_pos hm, if_pos hm,
          if_neg (fun h => hk (hm.trans h.symm))]
      · rw [findGroup_cons, findGroup_cons, if_neg hm, if_neg hm]
        exact ih

theorem findGroupD_foldGroup (es : List (Nat × Int)) (g : List (Nat × Int × Nat))
    (m : Nat) :
    (findGroup (es.foldl (fun g e => addToGroup g e.1 e.2) g) m).getD (0, 0) =
      (((findGroup g m).getD (0, 0)).1 +
         ((es.filter (fun e => e.1 == m)).map (fun e => e.2)).sum,
       ((findGroup g m).getD (0, 0)).2 +
         (es.filter (fun e => e.1 == m)).length) := by
  induction es generalizing g with
  | nil => simp
  | cons e rest ih =>
    rw [List.foldl_cons, ih, findGroupD_addToGroup]
    by_cases h : e.1 = m
    · rw [if_pos h, List.filter_cons, if_pos (by simp [h])]
      simp only [List.map_cons, List.sum_cons, List.length_cons, Prod.mk.injEq]
      constructor
      · ring
      · omega
    · rw [if_neg h, List.filter_cons, if_neg (by simp [h])]

theorem findGroupD_groupByMonth (es : List (Nat × Int)) (m : Nat) :
    (findGroup (groupByMonth es) m).getD (0, 0) =
      (((es.filter (fun e => e.1 == m)).map (fun e => e.2)).sum,
       (es.filter (fun e => e.1 == m)).length) := by
  rw [groupByMonth, findGroupD_foldGroup]
  simp [findGroup]

theorem filter_map_pair {α : Type} (L : List α) (P : α → Bool) (dm : α → Nat)
    (am : α → Int) (m : Nat) :
    ((L.filter P).map (fun e => (dm e, am e))).filter (fun p => p.1 == m) =
      (L.filter (fun e => P e && dm e == m)).map (fun e => (dm e, am e)) := by
  induction L with
  | nil => rfl
  | cons x rest ih =>
    by_cases hp : P x
    · by_cases hm : dm x = m
      · simp [List.filter_cons, hp, hm, ih]
      · simp [List.filter_cons, hp, hm, ih]
    · simp [List.filter_cons, hp, ih]

theorem filter_pair_fines (y m : Nat) (L : List LedgerEntry) :
    ((L.filter (fun e => inYearSpan y e.date)).map
        (fun e => (e.date.month, e.amount))).filter (fun p => p.1 == m) =
      (L.filter (fun e => inYearSpan y e.date && e.date.month == m)).map
        (fun e => (e.date.month, e.amount)) :=
  filter_map_pair L (fun e => inYearSpan y e.date) (fun e => e.date.month)
    (fun e => e.amount) m

theorem filter_pair_exps (y m : Nat) (L : List Expenditure) :
    ((L.filter (fun e => inYearSpan y e.date)).map
        (fun e => (e.date.month, e.amount))).filter (fun p => p.1 == m) =
      (L.filter (fun e => inYearSpan y e.date && e.date.month == m)).map
        (fun e => (e.date.month, e.amount)) :=
  filter_map_pair L (fun e => inYearSpan y e.date) (fun e => e.date.month)
    (fun e => e.amount) m

theorem group_income (y m : Nat) (students : List Student) :
    ((findGroup (groupByMonth (matchedFines y students)) m).map
      (fun x => x.1)).getD 0 = specMonthIncome y m students := by
  rw [map_getD_fst, findGroupD_groupByMonth, matchedFines, filter_pair_fines]
  simp [specMonthIncome, List.map_map, Function.comp_def]

theorem group_fineCount (y m : Nat) (students : List Student) :
    ((findGroup (groupByMonth (matchedFines y students)) m).map
      (fun x => x.2)).getD 0 = specMonthFineCount y m students := by
  rw [map_getD_snd, findGroupD_groupByMonth, matchedFines, filter_pair_fines]
  simp [specMonthFineCount]

theorem group_exp (y m : Nat) (exps : List Expenditure) :
    ((findGroup (groupByMonth (matchedExps y exps)) m).map
      (fun x => x.1)).getD 0 = specMonthExp y m exps := by
  rw [map_getD_fst, findGroupD_groupByMonth, matchedExps, filter_pair_exps]
  simp [specMonthExp, List.map_map, Function.comp_def]

theorem group_expCount (y m : Nat) (exps : List Expenditure) :
    ((findGroup (groupByMonth (matchedExps y exps)) m).map
      (fun x => x.2)).getD 0 = specMonthExpCount y m exps := by
  rw [map_getD_snd, findGroupD_groupByMonth, matchedExps, filter_pair_exps]
  simp [specMonthExpCount]

theorem foldl_add_proj {α : Type} (l : List α) (f : α → Int) (a : Int) :
    l.foldl (fun x y => x + f y) a = a + (l.map f).sum := by
  induction l generalizing a with
  | nil => simp
  | cons x xs ih => simp [List.foldl_cons, ih]; ring

/-- C3: for every year, `getMonthlyReport` returns exactly one row per
calendar month 1–12 (months with no activity report zero), each month's
income / expenditure being the sum of the ledger-entry / expenditure amounts
whose own date field falls in that month within the inclusive year span,
and the yearly totals equal the sums of the 12 monthly income, expenditure
and balance values. -/
theorem getMonthlyReport_correct (y : Nat) (students : List Student)
    (exps : List Expenditure) :
    (getMonthlyReport y students exps).monthlyReport =
      (List.range 12).map (fun i =>
        { month := monthNames.getD i ""
          monthNumber := i + 1
          income := specMonthIncome y (i + 1) students
          expenditure := specMonthExp y (i + 1) exps
          balance := specMonthIncome y (i + 1) students - specMonthExp y (i + 1) exps
          fineCount := specMonthFineCount y (i + 1) students
          expenditureCount := specMonthExpCount y (i + 1) exps : MonthRow }) ∧
    (getMonthlyReport y students exps).yearlyTotals =
      { totalIncome :=
          ((getMonthlyReport y students exps).monthlyReport.map
            (fun m => m.income)).sum
        totalExpenditure :=
          ((getMonthlyReport y students exps).monthlyReport.map
            (fun m => m.expenditure)).sum
        totalBalance :=
          ((getMonthlyReport y students exps).monthlyReport.map
            (fun m => m.balance)).sum } := by
  constructor
  · simp only [getMonthlyReport]
    exact List.map_congr_left (fun i _ => by
      rw [group_income, group_fineCount, group_exp, group_expCount])
  · simp only [getMonthlyReport]
    rw [foldl_add_proj, foldl_add_proj, foldl_add_proj]
    simp

/-! ### C6: receipt number format -/

theorem decDigitsAux_fuel (f1 : Nat) :
    ∀ f2 n, n < f1 → n < f2 → decDigitsAux f1 n = decDigitsAux f2 n := by
  induction f1 with
  | zero => intro f2 n h1 h2; omega
  | succ f1 ih =>
    intro f2 n h1 h2
    cases f2 with
    | zero => omega
    | succ f2 =>
      simp only [decDigitsAux]
      by_cases h : n < 10
      · simp [h]
      · have hdiv : n / 10 < n := Nat.div_lt_self (by omega) (by omega)
        simp only [if_neg h]
        rw [ih f2 (n / 10) (by omega) (by omega)]

theorem decDigits_unfold (n : Nat) :
    decDigits n = if n < 10 then [digitChar n]
      else decDigits (n / 10) ++ [digitChar (n % 10)] := by
  rw [decDigits, decDigitsAux]
  by_cases h : n < 10
  · simp [h]
  · have hdiv : n / 10 < n := Nat.div_lt_self (by omega) (by omega)
    simp only [if_neg h]
    rw [decDigitsAux_fuel n (n / 10 + 1) (n / 10) (by omega) (by omega)]
    rfl

theorem decDigits_length (k : Nat) :
    ∀ n, 10 ^ k ≤ n → n < 10 ^ (k + 1) → (decDigits n).length = k + 1 := by
  induction k with
  | zero =>
    intro n h1 h2
    rw [decDigits_unfold, if_pos (by simpa using h2)]
    rfl
  | succ k ih =>
    intro n h1 h2
    have h10 : 10 ≤ 10 ^ (k + 1) := by
      calc 10 = 10 ^ 1 := by norm_num
      _ ≤ 10 ^ (k + 1) := Nat.pow_le_pow_right (by norm_num) (by omega)
    have hge : ¬n < 10 := by omega
    rw [decDigits_unfold, if_neg hge, List.length_append]
    have h1' : 10 ^ k ≤ n / 10 := by
      rw [Nat.le_div_iff_mul_le (by norm_num)]
      calc 10 ^ k * 10 = 10 ^ (k + 1) := by ring
      _ ≤ n := h1
    have h2' : n / 10 < 10 ^ (k + 1) := by
      rw [Nat.div_lt_iff_lt_mul (by norm_num)]
      calc n < 10 ^ (k + 1 + 1) := h2
      _ = 10 ^ (k + 1) * 10 := by ring
    rw [ih (n / 10) h1' h2']
    rfl

theorem digitChar_isDigit (n : Nat) (h : n < 10) : (digitChar n).isDigit = true := by
  interval_cases n <;> decide

theorem decDigits_all_digits (n : Nat) :
    (decDigits n).all Char.isDigit = true := by
  induction n using Nat.strong_induction_on with
  | _ n ih =>
    by_cases h : n < 10
    · rw [decDigits_unfold, if_pos h]
      simp [digitChar_isDigit n h]
    · have hdiv : n / 10 < n := Nat.div_lt_self (by omega) (by omega)
      rw [decDigits_unfold, if_neg h, List.all_append]
      have h1 := ih (n / 10) hdiv
      have h2 : n % 10 < 10 := Nat.mod_lt _ (by omega)
      simp [h1, digitChar_isDigit _ h2]

/-- Every character of the string is a decimal digit. -/
def strAllDigits (s : String) : Bool := s.data.all Char.isDigit

theorem natToStr_length (n : Nat) : (natToStr n).length = (decDigits n).length := rfl

theorem string_data_append (a b : String) : (a ++ b).data = a.data ++ b.data := rfl

theorem natToStr_len5 (n : Nat) (h1 : 10000 ≤ n) (h2 : n < 100000) :
    (natToStr n).length = 5 := by
  rw [natToStr_length, decDigits_length 4 n (by norm_num [h1]) (by norm_num [h2])]

theorem natToStr_all_digits (n : Nat) : strAllDigits (natToStr n) = true :=
  decDigits_all_digits n

theorem decDigits_len1 (n : Nat) (h : n < 10) : (decDigits n).length = 1 := by
  rw [decDigits_unfold, if_pos h]
  rfl

theorem pad2_length (n : Nat) (h : n < 100) : (pad2 n).length = 2 := by
  rw [pad2]
  by_cases h1 : n < 10
  · rw [if_pos h1, String.length_append, natToStr_length, decDigits_len1 n h1]
    decide
  · rw [if_neg h1, natToStr_length,
      decDigits_length 1 n (by norm_num; omega) (by norm_num [h])]

theorem pad4_length (n : Nat) (h : n < 10000) : (pad4 n).length = 4 := by
  rw [pad4]
  by_cases h1 : n < 10
  · rw [if_pos h1, String.length_append, natToStr_length, decDigits_len1 n h1]
    decide
  · rw [if_neg h1]
    by_cases h2 : n < 100
    · rw [if_pos h2, String.length_append, natToStr_length,
        decDigits_length 1 n (by norm_num; omega) (by norm_num [h2])]
      decide
    · rw [if_neg h2]
      by_cases h3 : n < 1000
      · rw [if_pos h3, String.length_append, natToStr_length,
          decDigits_length 2 n (by norm_num; omega) (by norm_num [h3])]
        decide
      · rw [if_neg h3, natToStr_length,
          decDigits_length 3 n (by norm_num; omega) (by norm_num [h])]

theorem strAllDigits_append (a b : String) :
    strAllDigits (a ++ b) = (strAllDigits a && strAllDigits b) := by
  rw [strAllDigits, string_data_append, List.all_append]
  rfl

theorem pad2_all_digits (n : Nat) : strAllDigits (pad2 n) = true := by
  rw [pad2]
  by_cases h1 : n < 10
  · rw [if_pos h1, strAllDigits_append]
    simp [natToStr_all_digits]
    decide
  · rw [if_neg h1]
    exact natToStr_all_digits n

theorem pad4_all_digits (n : Nat) : strAllDigits (pad4 n) = true := by
  rw [pad4]
  by_cases h1 : n < 10
  · rw [if_pos h1, strAllDigits_append]
    simp [natToStr_all_digits]
    decide
  · rw [if_neg h1]
    by_cases h2 : n < 100
    · rw [if_pos h2, strAllDigits_append]
      simp [natToStr_all_digits]
      decide
    · rw [if_neg h2]
      by_cases h3 : n < 1000
      · rw [if_pos h3, strAllDigits_append]
        simp [natToStr_all_digits]
        decide
      · rw [if_neg h3]
        exact natToStr_all_digits n

theorem dateStr8_length (d : Date) (hy : d.year < 10000) (hm : d.month < 100)
    (hd : d.day < 100) : (dateStr8 d).length = 8 := by
  rw [dateStr8, String.length_append, String.length_append,
    pad4_length _ hy, pad2_length _ hm, pad2_length _ hd]

theorem dateStr8_all_digits (d : Date) : strAllDigits (dateStr8 d) = true := by
  rw [dateStr8, strAllDigits_append, strAllDigits_append]
  simp [pad4_all_digits, pad2_all_digits]

/-- C6: every receipt number generated by a successful `addFineToStudent`
call is `RCP-` ++ an 8-digit `YYYYMMDD` built from the date of the call
itself (not the supplied entry date, which is quantified independently)
++ `-` ++ exactly 5 decimal digits. -/
theorem addFine_receipt_format (r : Roster) (prn : String) (n : Int)
    (reason tp category : Option String) (date : Option Date) (now : Date)
    (rand5 : Nat) (e : LedgerEntry)
    (h5 : rand5 < 90000) (hy : now.year < 10000) (hm : now.month < 100)
    (hd : now.day < 100)
    (hok : (addFineToStudent r prn (.numeric n) reason tp category date now
      rand5).1 = .ok e) :
    e.receiptNumber = "RCP-" ++ dateStr8 now ++ "-" ++ natToStr (10000 + rand5) ∧
    (dateStr8 now).length = 8 ∧ strAllDigits (dateStr8 now) = true ∧
    (natToStr (10000 + rand5)).length = 5 ∧
    strAllDigits (natToStr (10000 + rand5)) = true := by
  refine ⟨?_, dateStr8_length now hy hm hd, dateStr8_all_digits now,
    natToStr_len5 _ (by omega) (by omega), natToStr_all_digits _⟩
  rw [addFineToStudent] at hok
  split_ifs at hok with h1 h2
  all_goals try simp at hok
  rcases hr : r (strUpper prn) with _ | s
  · simp [hr] at hok
  · simp only [hr] at hok
    injection hok with h
    rw [← h]
    rfl

/-! ### C5: add-fine validation and atomicity -/

/-- Written from the spec: the amount is invalid when it is missing,
non-numeric, or not strictly positive. -/
def specAmountInvalid : AmountInput → Bool
  | .missing => true
  | .nonNumeric => true
  | .numeric n => decide (n ≤ 0)

/-- C5: `addFineToStudent` fails with a validation error whenever the amount
is missing, non-numeric or not strictly positive; fails with a not-found
error whenever the amount is valid but the uppercased identifier matches no
student; and on every failure it returns the roster unchanged (it fails
before any mutation). -/
theorem addFine_failure_atomic (r : Roster) (prn : String)
    (amount : AmountInput) (reason tp category : Option String)
    (date : Option Date) (now : Date) (rand5 : Nat) :
    (specAmountInvalid amount = true →
      ((addFineToStudent r prn amount reason tp category date now rand5).1 =
          .error .missingAmount ∨
        (addFineToStudent r prn amount reason tp category date now rand5).1 =
          .error .nonPositiveAmount) ∧
      (addFineToStudent r prn amount reason tp category date now rand5).2 = r) ∧
    (∀ n : Int, amount = .numeric n → 0 < n → r (strUpper prn) = none →
      (addFineToStudent r prn amount reason tp category date now rand5).1 =
        .error (.notFound (strUpper prn)) ∧
      (addFineToStudent r prn amount reason tp category date now rand5).2 = r) ∧
    (∀ err, (addFineToStudent r prn amount reason tp category date now
        rand5).1 = .error err →
      (addFineToStudent r prn amount reason tp category date now rand5).2 = r) := by
  refine ⟨?_, ?_, ?_⟩
  · intro hbad
    cases amount with
    | missing => simp [addFineToStudent, amountFalsy]
    | nonNumeric => simp [addFineToStudent, amountFalsy, amountBad]
    | numeric n =>
      have hn : n ≤ 0 := by simpa [specAmountInvalid] using hbad
      by_cases h0 : n = 0
      · subst h0
        simp [addFineToStudent, amountFalsy]
      · have hfalsy : (n == 0) = false := by simp [h0]
        simp [addFineToStudent, amountFalsy, amountBad, hfalsy, hn]
  · rintro n rfl hpos hnone
    have hfalsy : (n == 0) = false := by simp; omega
    have hbad : decide (n ≤ 0) = false := by simp; omega
    simp [addFineToStudent, amountFalsy, amountBad, hfalsy, hbad, hnone]
  · intro err herr
    rw [addFineToStudent] at herr ⊢
    split_ifs at herr ⊢ with h1 h2
    · rfl
    · rfl
    · rcases hr : r (strUpper prn) with _ | s
      · simp [hr]
      · simp only [hr] at herr
        simp at herr

def wStudent : Student :=
  { prn := "PRN1", name := "Bob", academicYear := none, semester := none
    year := none, division := none, rollNo := none, department := none
    email := none, phone := none, fines := [] }

def wRoster : Roster := fun q => if q = "PRN1" then some wStudent else none

theorem addFine_failure_atomic_witness :
    ((addFineToStudent wRoster "x" .missing none none none none
        ⟨2024, 1, 1⟩ 0).1 = .error .missingAmount ∨
      (addFineToStudent wRoster "x" .missing none none none none
        ⟨2024, 1, 1⟩ 0).1 = .error .nonPositiveAmount) ∧
    (addFineToStudent wRoster "x" .missing none none none none
      ⟨2024, 1, 1⟩ 0).2 = wRoster :=
  (addFine_failure_atomic wRoster "x" .missing none none none none
    ⟨2024, 1, 1⟩ 0).1 (by decide)

def wEntry : LedgerEntry :=
  { amount := 5, reason := "", type := "fine", category := "Others"
    receiptNumber := receiptNumber ⟨2024, 1, 2⟩ 0
    date := ⟨2024, 1, 2⟩, isPaid := true, paidDate := ⟨2024, 1, 2⟩ }

theorem addFine_receipt_format_witness :
    wEntry.receiptNumber =
      "RCP-" ++ dateStr8 ⟨2024, 1, 2⟩ ++ "-" ++ natToStr 10000 ∧
    (dateStr8 ⟨2024, 1, 2⟩).length = 8 ∧
    strAllDigits (dateStr8 ⟨2024, 1, 2⟩) = true ∧
    (natToStr 10000).length = 5 ∧ strAllDigits (natToStr 10000) = true :=
  addFine_receipt_format wRoster "prn1" 5 none none none none ⟨2024, 1, 2⟩ 0
    wEntry (by decide) (by decide) (by decide) (by decide) rfl

/-! ### C8: per-row exception handling -/

def cexRow : Row := [("prn number", "abc123"), ("name", "Bob")]

/-- C8 counterexample: for a row whose identifier resolves (to "ABC123")
through the alias `prn number` and whose persistence throws, the recorded
per-row error carries "Unknown" — the catch block reads the raw key `prn`,
not the resolved identifier — refuting the claim that "Unknown" is used only
when the identifier is unresolved. -/
theorem uploadCSV_errorDetail_not_resolved_prn :
    (uploadStudentsCSV (fun _ => none) [(cexRow, some "boom")]).2.errorDetails =
      [("Unknown", "boom")] ∧
    rowPrn cexRow = some "ABC123" := by
  constructor
  · rfl
  · rfl

/-- C8 (amended): an exception while persisting a validated row is caught:
the batch records one more error whose identifier is the row's raw value
under the exact key `prn` when that is present, and "Unknown" otherwise
(even if the identifier was resolved through an alias); the roster and the
other counters are untouched and the remaining rows are still processed. -/
theorem uploadCSV_exception_caught_continues (st : BatchState) (row : Row)
    (msg : String) (rest : List (Row × Option String))
    (hv : validRow row = true) :
    runRows st ((row, some msg) :: rest) =
      runRows { st with
        errorCount := st.errorCount + 1
        errorDetails := st.errorDetails ++ [(rawPrnFallback row, msg)] } rest := by
  rw [runRows]
  congr 1
  rw [processRow]
  rw [validRow] at hv
  have hc : (falsy (rowPrn row) || falsy (rowName row)) = false := by
    simpa using hv
  rw [if_neg (by simp [hc])]

theorem uploadCSV_exception_caught_continues_witness :
    runRows (initState (fun _ => none)) [(cexRow, some "x")] =
      runRows { initState (fun _ => none) with
        errorCount := 1
        errorDetails := [(rawPrnFallback cexRow, "x")] } [] :=
  uploadCSV_exception_caught_continues (initState (fun _ => none)) cexRow "x"
    [] (by decide)

/-! ### C10: the department column is never consulted -/

/-- Remove every column with the given (normalized) header name. -/
def dropKey (row : Row) (key : String) : Row :=
  row.filter (fun kv => !(kv.1 == key))

/-- Every alias list the uploader resolves fields with. -/
def uploaderAliasLists : List (List String) :=
  [["prn number", "prn", "prnnumber"],
   ["student name", "name", "studentname"],
   ["academic year", "academicyear"],
   ["semester"], ["year"], ["division"],
   ["roll no", "rollno", "roll"],
   ["mobile number", "mobile", "phone"],
   ["email id", "email", "emailid"]]

theorem find?_filter_not {α : Type} (l : List α) (p q : α → Bool)
    (h : ∀ x, q x = false → p x = false) :
    (l.filter q).find? p = l.find? p := by
  induction l with
  | nil => rfl
  | cons x xs ih =>
    by_cases hq : q x
    · by_cases hp : p x
      · simp [List.filter_cons, hq, List.find?_cons, hp]
      · simp [List.filter_cons, hq, List.find?_cons, hp, ih]
    · have hp := h x (by simpa using hq)
      simp [List.filter_cons, hq, List.find?_cons, hp, ih]

theorem getValue_dropKey (row : Row) (key : String) (ks : List String)
    (h : ∀ k ∈ ks, (k == key) = false ∧ substrMatch k key = false) :
    getValue (dropKey row key) ks = getValue row ks := by
  induction ks with
  | nil => rfl
  | cons k rest ih =>
    obtain ⟨h1, h2⟩ := h k (by simp)
    have hne : k ≠ key := by simpa using h1
    have hlook : rowLookup (dropKey row key) k = rowLookup row k := by
      rw [rowLookup, rowLookup, dropKey, find?_filter_not]
      intro x hx
      have hxk : x.1 = key := by simpa using hx
      rw [hxk]
      simp only [beq_eq_false_iff_ne]
      exact fun hh => hne hh.symm
    have hfind : (dropKey row key).find? (fun kv => substrMatch k kv.1) =
        row.find? (fun kv => substrMatch k kv.1) := by
      rw [dropKey, find?_filter_not]
      intro x hx
      have hxk : x.1 = key := by simpa using hx
      rw [hxk, h2]
    rw [getValue, getValue, hlook, hfind]
    cases rowLookup row k with
    | some v => rfl
    | none =>
      cases row.find? (fun kv => substrMatch k kv.1) with
      | some kv => rfl
      | none => exact ih (fun k hk => h k (by simp [hk]))

/-- C10: the uploader populates a student's `department` field from the
resolved *division* column, and a CSV column literally named `department`
is never consulted by any of the uploader's alias lookups: removing it
changes no field resolution (so a file whose only department-like column is
named `department` yields students with no department value from it). -/
theorem department_from_division (row : Row) :
    (rowData row).department = present (rowDivision row) ∧
    ∀ ks ∈ uploaderAliasLists,
      getValue (dropKey row "department") ks = getValue row ks := by
  refine ⟨rfl, ?_⟩
  intro ks hks
  apply getValue_dropKey
  fin_cases hks <;> decide

theorem department_from_division_witness :
    getValue (dropKey [("department", "IT")] "department") ["division"] =
      getValue [("department", "IT")] ["division"] :=
  (department_from_division [("department", "IT")]).2 ["division"] (by decide)

/-! ### C1: reconciliation is non-destructive -/

/-- Written from the spec: the reconciled student after an update row —
name overwritten unconditionally, every optional organizational/contact
field overwritten only if the row resolved a present (non-empty) value,
identifier and ledger untouched. -/
def specMerged (s : Student) (row : Row) : Student :=
  { prn := s.prn
    name := (rowName row).getD ""
    academicYear := optOr (present (rowAcademicYear row)) s.academicYear
    semester := optOr (present (rowSemester row)) s.semester
    year := optOr (present (rowYear row)) s.year
    division := optOr (present (rowDivision row)) s.division
    rollNo := optOr (present (rowRollNo row)) s.rollNo
    department := optOr (present (rowDivision row)) s.department
    email := optOr (present (rowEmail row)) s.email
    phone := optOr (present (rowPhone row)) s.phone
    fines := s.fines }

/-- C1: applying a CSV-upload row to a roster that already holds a student
with the row's identifier replaces that student by `specMerged`: name
overwritten unconditionally, optional fields only when the resolved value is
present, and the ledger (`fines`) sequence exactly unchanged; other students
are untouched and the update count increments. -/
theorem uploadCSV_update_preserves_ledger (st : BatchState) (row : Row)
    (s : Student) (hv : validRow row = true)
    (hs : st.roster (rowData row).prn = some s) :
    (processRow st row none).roster (rowData row).prn = some (specMerged s row) ∧
    (specMerged s row).fines = s.fines ∧
    (∀ q, q ≠ (rowData row).prn → (processRow st row none).roster q = st.roster q) ∧
    (processRow st row none).updatedStudents = st.updatedStudents + 1 ∧
    (processRow st row none).newStudents = st.newStudents ∧
    (processRow st row none).errorCount = st.errorCount := by
  have hc : (falsy (rowPrn row) || falsy (rowName row)) = false := by
    rw [validRow] at hv
    simpa using hv
  have hmerge : mergeStudent s (rowData row) = specMerged s row := rfl
  have hst : processRow st row none = { st with
      roster := updateRoster st.roster (rowData row).prn
        (mergeStudent s (rowData row))
      updatedStudents := st.updatedStudents + 1 } := by
    rw [processRow, if_neg (by simp [hc])]
    simp only [hs]
  rw [hst]
  refine ⟨?_, rfl, ?_, rfl, rfl, rfl⟩
  · simp [updateRoster, hmerge]
  · intro q hq
    simp [updateRoster, hq]

def wFine : LedgerEntry :=
  { amount := 100, reason := "late", type := "fine", category := "Others"
    receiptNumber := "RCP-20240101-12345", date := ⟨2024, 1, 1⟩
    isPaid := true, paidDate := ⟨2024, 1, 1⟩ }

def wExisting : Student :=
  { prn := "P1", name := "Old Name", academicYear := none, semester := none
    year := none, division := some "EE", rollNo := none
    department := some "EE", email := none, phone := none, fines := [wFine] }

def wBatchState : BatchState :=
  initState (fun q => if q = "P1" then some wExisting else none)

def wUpdateRow : Row := [("prn", "p1"), ("name", "New Name"), ("division", "CS")]

theorem uploadCSV_update_preserves_ledger_witness :
    (processRow wBatchState wUpdateRow none).roster (rowData wUpdateRow).prn =
      some (specMerged wExisting wUpdateRow) ∧
    (specMerged wExisting wUpdateRow).fines = wExisting.fines ∧
    (∀ q, q ≠ (rowData wUpdateRow).prn →
      (processRow wBatchState wUpdateRow none).roster q = wBatchState.roster q) ∧
    (processRow wBatchState wUpdateRow none).updatedStudents =
      wBatchState.updatedStudents + 1 ∧
    (processRow wBatchState wUpdateRow none).newStudents =
      wBatchState.newStudents ∧
    (processRow wBatchState wUpdateRow none).errorCount =
      wBatchState.errorCount :=
  uploadCSV_update_preserves_ledger wBatchState wUpdateRow wExisting
    (by decide) (by decide)

/-! ### Shared machinery: per-identifier action of a batch -/

/-- The action of one valid row's data on the slot of its identifier:
merge into the existing student, or create a new one. -/
def slotStep (sl : Option Student) (d : StudentData) : Student :=
  match sl with
  | some s => mergeStudent s d
  | none => createStudent d

/-- The successive action of a sequence of row data on one slot. -/
def chainSlot (sl : Option Student) (ds : List StudentData) : Option Student :=
  ds.foldl (fun t d => some (slotStep t d)) sl

/-- The resolved data of the rows that pass validation, in order. -/
def validDatas (rows : List Row) : List StudentData :=
  (rows.filter validRow).map rowData

def validCount (rows : List Row) : Nat := (rows.filter validRow).length

def invalidCount (rows : List Row) : Nat :=
  (rows.filter (fun r => !validRow r)).length

theorem noExc_cons (row : Row) (rest : List Row) :
    noExc (row :: rest) = (row, none) :: noExc rest := rfl

theorem chainSlot_cons (sl : Option Student) (d : StudentData)
    (ds : List StudentData) :
    chainSlot sl (d :: ds) = chainSlot (some (slotStep sl d)) ds := rfl

theorem processRow_invalid (st : BatchState) (row : Row)
    (exc : Option String) (hv : validRow row = false) :
    processRow st row exc = { st with
      errorCount := st.errorCount + 1
      errorDetails := st.errorDetails ++ [(errPrnValid row, missingFieldsMsg)] } := by
  have hc : (falsy (rowPrn row) || falsy (rowName row)) = true := by
    cases h : (falsy (rowPrn row) || falsy (rowName row))
    · rw [validRow, h] at hv
      simp at hv
    · rfl
  rw [processRow.eq_def, if_pos (by simp [hc])]

theorem processRow_valid_roster (st : BatchState) (row : Row)
    (hv : validRow row = true) (q : String) :
    (processRow st row none).roster q =
      if q = (rowData row).prn then
        some (slotStep (st.roster (rowData row).prn) (rowData row))
      else st.roster q := by
  have hc : (falsy (rowPrn row) || falsy (rowName row)) = false := by
    rw [validRow] at hv
    simpa using hv
  rw [processRow, if_neg (by simp [hc])]
  cases hl : st.roster (rowData row).prn with
  | some s => simp [hl, updateRoster, slotStep]
  | none => simp [hl, updateRoster, slotStep]

/-- Projection of the batch to one identifier: after the batch, the slot of
`q` is the chain of all valid rows whose resolved identifier is `q`, applied
to the initial slot; rows with other identifiers and invalid rows do not
touch it. -/
theorem runRows_roster_proj (rows : List Row) : ∀ (st : BatchState) (q : String),
    (runRows st (noExc rows)).roster q =
      chainSlot (st.roster q)
        ((validDatas rows).filter (fun d => d.prn == q)) := by
  induction rows with
  | nil => intro st q; rfl
  | cons row rest ih =>
    intro st q
    rw [noExc_cons, runRows, ih]
    by_cases hv : validRow row
    · have hvd : validDatas (row :: rest) = rowData row :: validDatas rest := by
        simp [validDatas, List.filter_cons, hv]
      by_cases hq : (rowData row).prn = q
      · rw [processRow_valid_roster st row hv, if_pos hq.symm, hvd,
          List.filter_cons, if_pos (by simp [hq]), chainSlot_cons, hq]
      · rw [processRow_valid_roster st row hv, if_neg (fun h => hq h.symm),
          hvd, List.filter_cons, if_neg (by simp [hq])]
    · have hvd : validDatas (row :: rest) = validDatas rest := by
        simp [validDatas, List.filter_cons, hv]
      rw [processRow_invalid st row none (by simpa using hv), hvd]

/-- Counting lemma: each row adds 1 to the error count when invalid, and 1
to `new + updated` when valid. -/
theorem runRows_counts (rows : List Row) : ∀ st : BatchState,
    (runRows st (noExc rows)).errorCount = st.errorCount + invalidCount rows ∧
    (runRows st (noExc rows)).newStudents +
      (runRows st (noExc rows)).updatedStudents =
      st.newStudents + st.updatedStudents + validCount rows := by
  induction rows with
  | nil =>
    intro st
    simp [runRows, noExc, validCount, invalidCount]
  | cons row rest ih =>
    intro st
    rw [noExc_cons, runRows]
    obtain ⟨ihe, ihn⟩ := ih (processRow st row none)
    by_cases hv : validRow row
    · have hc : (falsy (rowPrn row) || falsy (rowName row)) = false := by
        rw [validRow] at hv
        simpa using hv
      have hp : (processRow st row none).errorCount = st.errorCount ∧
          (processRow st row none).newStudents +
            (processRow st row none).updatedStudents =
            st.newStudents + st.updatedStudents + 1 := by
        rw [processRow, if_neg (by simp [hc])]
        cases hl : st.roster (rowData row).prn with
        | some s => simp [hl]; omega
        | none => simp [hl]; omega
      constructor
      · rw [ihe, hp.1]
        simp [invalidCount, List.filter_cons, hv]
      · rw [ihn, hp.2]
        simp [validCount, List.filter_cons, hv]
        omega
    · have hp := processRow_invalid st row none (by simpa using hv)
      constructor
      · rw [ihe, hp]
        simp [invalidCount, List.filter_cons, hv]
        omega
      · rw [ihn, hp]
        simp [validCount, List.filter_cons, hv]

theorem validCount_add_invalidCount (rows : List Row) :
    validCount rows + invalidCount rows = rows.length := by
  induction rows with
  | nil => rfl
  | cons row rest ih =>
    by_cases hv : validRow row <;>
      simp [validCount, invalidCount, List.filter_cons, hv] at * <;> omega

/-! ### C4: partial-batch tolerance -/

/-- C4: a batch of N rows of which K fail validation (and the rest persist
without exception) completes with a full `BatchResult`: `errors = K`,
`newStudents + updatedStudents = N - K`, `totalRecords = N`, and every valid
row is applied to its identifier's slot, in order (invalid rows touch
nothing). -/
theorem uploadCSV_partial_batch_tolerance (r : Roster) (rows : List Row) :
    (uploadStudentsCSV r (noExc rows)).2.errors = invalidCount rows ∧
    (uploadStudentsCSV r (noExc rows)).2.newStudents +
      (uploadStudentsCSV r (noExc rows)).2.updatedStudents =
      rows.length - invalidCount rows ∧
    (uploadStudentsCSV r (noExc rows)).2.totalRecords = rows.length ∧
    ∀ q, (uploadStudentsCSV r (noExc rows)).1.roster q =
      chainSlot (r q) ((validDatas rows).filter (fun d => d.prn == q)) := by
  obtain ⟨he, hn⟩ := runRows_counts rows (initState r)
  have hvi := validCount_add_invalidCount rows
  refine ⟨?_, ?_, ?_, ?_⟩
  · simpa [uploadStudentsCSV, initState] using he
  · have : (runRows (initState r) (noExc rows)).newStudents +
        (runRows (initState r) (noExc rows)).updatedStudents =
        validCount rows := by simpa [initState] using hn
    simp only [uploadStudentsCSV]
    omega
  · simp [uploadStudentsCSV, noExc]
  · intro q
    simpa [initState] using runRows_roster_proj rows (initState r) q

/-! ### C9: re-running an unchanged batch -/

def mergeChain (ds : List StudentData) (s : Student) : Student :=
  ds.foldl mergeStudent s

theorem mergeChain_cons (d : StudentData) (ds : List StudentData) (s : Student) :
    mergeChain (d :: ds) s = mergeChain ds (mergeStudent s d) := rfl

/-- The value of the last data in the list that has this field present. -/
def lastPresent (f : StudentData → Option String) :
    List StudentData → Option String
  | [] => none
  | d :: ds => optOr (lastPresent f ds) (f d)

/-- The name carried by the last data in the list, if any. -/
def lastName : List StudentData → Option String
  | [] => none
  | d :: ds => optOr (lastName ds) (some d.name)

/-- Closed form of a chain of merges: every optional field ends at the last
present value (falling back to the start student), the name at the last
row's name, and `prn` and `fines` never move. -/
def chainSpec (ds : List StudentData) (s : Student) : Student :=
  { prn := s.prn
    name := (lastName ds).getD s.name
    academicYear := optOr (lastPresent (fun d => d.academicYear) ds) s.academicYear
    semester := optOr (lastPresent (fun d => d.semester) ds) s.semester
    year := optOr (lastPresent (fun d => d.year) ds) s.year
    division := optOr (lastPresent (fun d => d.division) ds) s.division
    rollNo := optOr (lastPresent (fun d => d.rollNo) ds) s.rollNo
    department := optOr (lastPresent (fun d => d.department) ds) s.department
    email := optOr (lastPresent (fun d => d.email) ds) s.email
    phone := optOr (lastPresent (fun d => d.phone) ds) s.phone
    fines := s.fines }

theorem optOr_assoc (a b c : Option String) :
    optOr a (optOr b c) = optOr (optOr a b) c := by
  cases a <;> rfl

/-- Field-wise extensionality for `Student`. -/
theorem Student.ext' (a b : Student) (h1 : a.prn = b.prn)
    (h2 : a.name = b.name) (h3 : a.academicYear = b.academicYear)
    (h4 : a.semester = b.semester) (h5 : a.year = b.year)
    (h6 : a.division = b.division) (h7 : a.rollNo = b.rollNo)
    (h8 : a.department = b.department) (h9 : a.email = b.email)
    (h10 : a.phone = b.phone) (h11 : a.fines = b.fines) : a = b := by
  cases a
  cases b
  simp only [Student.mk.injEq]
  exact ⟨h1, h2, h3, h4, h5, h6, h7, h8, h9, h10, h11⟩

theorem mergeChain_eq_chainSpec (ds : List StudentData) : ∀ s : Student,
    mergeChain ds s = chainSpec ds s := by
  induction ds with
  | nil => intro s; rfl
  | cons d ds ih =>
    intro s
    rw [mergeChain_cons, ih]
    refine Student.ext' _ _ rfl ?_ ?_ ?_ ?_ ?_ ?_ ?_ ?_ ?_ rfl
    · simp only [chainSpec, mergeStudent, lastName]
      cases lastName ds <;> rfl
    all_goals simp only [chainSpec, mergeStudent, lastPresent]
    all_goals exact optOr_assoc _ _ _

theorem optOr_absorb (a b : Option String) : optOr a (optOr a b) = optOr a b := by
  cases a <;> rfl

theorem optOr_self (a : Option String) : optOr a a = a := by
  cases a <;> rfl

/-- The student produced by a row's slot action absorbs a second merge of
the same row. -/
theorem merge_absorb (sl : Option Student) (d : StudentData) :
    mergeStudent (slotStep sl d) d = slotStep sl d := by
  cases sl with
  | some s =>
    refine Student.ext' _ _ rfl rfl ?_ ?_ ?_ ?_ ?_ ?_ ?_ ?_ rfl
    all_goals simp only [slotStep, mergeStudent]
    all_goals exact optOr_absorb _ _
  | none =>
    refine Student.ext' _ _ rfl rfl ?_ ?_ ?_ ?_ ?_ ?_ ?_ ?_ rfl
    all_goals simp only [slotStep, createStudent, mergeStudent]
    all_goals exact optOr_self _

theorem mergeChain_absorb (ds : List StudentData) (d : StudentData)
    (s1 : Student) (h : mergeStudent s1 d = s1) :
    mergeChain ds (mergeStudent (mergeChain ds s1) d) = mergeChain ds s1 := by
  have hname : d.name = s1.name := congrArg Student.name h
  have hay : optOr d.academicYear s1.academicYear = s1.academicYear :=
    congrArg Student.academicYear h
  have hsem : optOr d.semester s1.semester = s1.semester :=
    congrArg Student.semester h
  have hyr : optOr d.year s1.year = s1.year := congrArg Student.year h
  have hdiv : optOr d.division s1.division = s1.division :=
    congrArg Student.division h
  have hroll : optOr d.rollNo s1.rollNo = s1.rollNo := congrArg Student.rollNo h
  have hdep : optOr d.department s1.department = s1.department :=
    congrArg Student.department h
  have hem : optOr d.email s1.email = s1.email := congrArg Student.email h
  have hph : optOr d.phone s1.phone = s1.phone := congrArg Student.phone h
  rw [mergeChain_eq_chainSpec, mergeChain_eq_chainSpec]
  refine Student.ext' _ _ rfl ?_ ?_ ?_ ?_ ?_ ?_ ?_ ?_ ?_ rfl
  · simp only [chainSpec, mergeStudent]
    cases hn : lastName ds
    · simpa [optOr] using hname
    · rfl
  · simp only [chainSpec, mergeStudent]
    cases hl : lastPresent (fun d => d.academicYear) ds
    · simpa [optOr] using hay
    · rfl
  · simp only [chainSpec, mergeStudent]
    cases hl : lastPresent (fun d => d.semester) ds
    · simpa [optOr] using hsem
    · rfl
  · simp only [chainSpec, mergeStudent]
    cases hl : lastPresent (fun d => d.year) ds
    · simpa [optOr] using hyr
    · rfl
  · simp only [chainSpec, mergeStudent]
    cases hl : lastPresent (fun d => d.division) ds
    · simpa [optOr] using hdiv
    · rfl
  · simp only [chainSpec, mergeStudent]
    cases hl : lastPresent (fun d => d.rollNo) ds
    · simpa [optOr] using hroll
    · rfl
  · simp only [chainSpec, mergeStudent]
    cases hl : lastPresent (fun d => d.department) ds
    · simpa [optOr] using hdep
    · rfl
  · simp only [chainSpec, mergeStudent]
    cases hl : lastPresent (fun d => d.email) ds
    · simpa [optOr] using hem
    · rfl
  · simp only [chainSpec, mergeStudent]
    cases hl : lastPresent (fun d => d.phone) ds
    · simpa [optOr] using hph
    · rfl

theorem chainSlot_some (ds : List StudentData) : ∀ s : Student,
    chainSlot (some s) ds = some (mergeChain ds s) := by
  induction ds with
  | nil => intro s; rfl
  | cons d ds ih =>
    intro s
    rw [chainSlot_cons, mergeChain_cons]
    exact ih (mergeStudent s d)

/-- Re-applying the same sequence of row data to a slot is a no-op. -/
theorem chainSlot_idem (ds : List StudentData) (sl : Option Student) :
    chainSlot (chainSlot sl ds) ds = chainSlot sl ds := by
  cases ds with
  | nil => rfl
  | cons d rest =>
    rw [chainSlot_cons, chainSlot_some, chainSlot_cons, chainSlot_some]
    rw [show slotStep (some (mergeChain rest (slotStep sl d))) d =
      mergeStudent (mergeChain rest (slotStep sl d)) d from rfl]
    rw [mergeChain_absorb rest d (slotStep sl d) (merge_absorb sl d)]

theorem chainSlot_isSome (ds : List StudentData) (sl : Option Student)
    (h : ds ≠ []) : (chainSlot sl ds).isSome = true := by
  cases ds with
  | nil => exact absurd rfl h
  | cons d rest => rw [chainSlot_cons, chainSlot_some]; rfl

/-- After a batch, every valid row's resolved identifier is present in the
roster. -/
theorem valid_prn_present (r : Roster) (rows : List Row) (row : Row)
    (hr : row ∈ rows) (hv : validRow row = true) :
    ((runRows (initState r) (noExc rows)).roster (rowData row).prn).isSome
      = true := by
  rw [runRows_roster_proj]
  have hmem : rowData row ∈ (validDatas rows).filter
      (fun d => d.prn == (rowData row).prn) := by
    refine List.mem_filter.mpr ⟨?_, by simp⟩
    exact List.mem_map_of_mem _ (List.mem_filter.mpr ⟨hr, hv⟩)
  exact chainSlot_isSome _ _ (List.ne_nil_of_mem hmem)

/-- If every valid row's identifier is already present, the whole batch
takes only the update path: no creations, one update per valid row. -/
theorem runRows_all_update (rows : List Row) : ∀ st : BatchState,
    (∀ row ∈ rows, validRow row = true →
      (st.roster (rowData row).prn).isSome = true) →
    (runRows st (noExc rows)).newStudents = st.newStudents ∧
    (runRows st (noExc rows)).updatedStudents =
      st.updatedStudents + validCount rows := by
  induction rows with
  | nil =>
    intro st _
    simp [runRows, noExc, validCount]
  | cons row rest ih =>
    intro st h
    rw [noExc_cons, runRows]
    by_cases hv : validRow row
    · have hin := h row (by simp) hv
      obtain ⟨s, hs⟩ := Option.isSome_iff_exists.mp hin
      have hc : (falsy (rowPrn row) || falsy (rowName row)) = false := by
        rw [validRow] at hv
        simpa using hv
      have hstep : processRow st row none = { st with
          roster := updateRoster st.roster (rowData row).prn
            (mergeStudent s (rowData row))
          updatedStudents := st.updatedStudents + 1 } := by
        rw [processRow, if_neg (by simp [hc])]
        simp only [hs]
      have hmono : ∀ row2 ∈ rest, validRow row2 = true →
          ((processRow st row none).roster (rowData row2).prn).isSome = true := by
        intro row2 hr2 hv2
        have h2 := h row2 (by simp [hr2]) hv2
        rw [hstep]
        simp only [updateRoster]
        by_cases hq : (rowData row2).prn = (rowData row).prn
        · simp [hq]
        · simp only [if_neg hq]
          exact h2
      obtain ⟨ihn, ihu⟩ := ih (processRow st row none) hmono
      constructor
      · rw [ihn, hstep]
      · rw [ihu, hstep]
        simp [validCount, List.filter_cons, hv]
        omega
    · have hstep := processRow_invalid st row none (by simpa using hv)
      have hmono : ∀ row2 ∈ rest, validRow row2 = true →
          ((processRow st row none).roster (rowData row2).prn).isSome = true := by
        intro row2 hr2 hv2
        rw [hstep]
        exact h row2 (by simp [hr2]) hv2
      obtain ⟨ihn, ihu⟩ := ih (processRow st row none) hmono
      constructor
      · rw [ihn, hstep]
      · rw [ihu, hstep]
        simp [validCount, List.filter_cons, hv]

/-- C9: re-running the identical batch over the roster produced by a first
run reproduces exactly the same roster — the second run takes the update
path for every valid row (no new students, one update per valid row) and
changes no field values or ledger entries. -/
theorem uploadCSV_idempotent (r : Roster) (rows : List Row) :
    (runRows (initState ((runRows (initState r) (noExc rows)).roster))
        (noExc rows)).roster =
      (runRows (initState r) (noExc rows)).roster ∧
    (runRows (initState ((runRows (initState r) (noExc rows)).roster))
        (noExc rows)).newStudents = 0 ∧
    (runRows (initState ((runRows (initState r) (noExc rows)).roster))
        (noExc rows)).updatedStudents = validCount rows := by
  have hroster : (runRows (initState ((runRows (initState r)
      (noExc rows)).roster)) (noExc rows)).roster =
      (runRows (initState r) (noExc rows)).roster := by
    funext q
    rw [runRows_roster_proj, runRows_roster_proj,
      show (initState ((runRows (initState r) (noExc rows)).roster)).roster =
        (runRows (initState r) (noExc rows)).roster from rfl,
      runRows_roster_proj]
    exact chainSlot_idem _ _
  have hpre : ∀ row ∈ rows, validRow row = true →
      (((initState ((runRows (initState r) (noExc rows)).roster)).roster
        (rowData row).prn).isSome) = true := by
    intro row hr hv
    exact valid_prn_present r rows row hr hv
  obtain ⟨hn, hu⟩ := runRows_all_update rows
    (initState ((runRows (initState r) (noExc rows)).roster)) hpre
  refine ⟨hroster, hn, ?_⟩
  rw [hu]
  simp [initState]

end FineMgmt
